import Mathlib

/-!
Verification of the ECMR placement scheduler and the Pareto front manager
of the `cloudsim-baseline` repository.

The Python sources are embedded shallowly:

* `pareto_utils.py` (`ParetoFront`) becomes the `Pareto` namespace.
  NumPy `float64` objective values are modelled as `ℚ`; an objective
  vector is a `List ℚ` and NumPy's element-wise `obj1 <= obj2` / `obj1 < obj2`
  reductions become `zip`-based folds.  `np.inf` crowding distances are
  modelled by `WithTop ℚ` (`⊤` = infinity).  `np.argsort` is modelled as the
  stable argsort: indices ordered by key, equal keys in original order.
* `ecmr_baseline.py` (`Datacenter`, `ECMRScheduler`) and
  `ecmr_cloudsim_complete.py` (`ECMRCompleteScheduler`) become the `ECMR`
  namespace.  Python `int` counters that the code can drive negative
  (`used_cpus`, `used_ram_mb`) are modelled as `ℤ`.  The haversine distance
  (a transcendental function of the coordinates) is abstracted as an
  arbitrary parameter `hav : ℚ → ℚ → ℚ` mapping a datacenter's
  `(latitude, longitude)` to the distance in km from the configured user
  location; all theorems hold for every such function.  Python's stable
  `list.sort` / `sorted` are modelled by `List.insertionSort`, which is
  stable.  Python's `round(x, n)` (banker's rounding) is modelled exactly
  on `ℚ` by `pyRound`.
-/

namespace Pareto

/-- `ParetoFront._dominates` (pareto_utils.py:68-86):
`obj1` dominates `obj2` iff `np.all(obj1 <= obj2)` and `np.any(obj1 < obj2)`. -/
def dominates (obj1 obj2 : List ℚ) : Bool :=
  ((obj1.zip obj2).all fun p => decide (p.1 ≤ p.2)) &&
  ((obj1.zip obj2).any fun p => decide (p.1 < p.2))

/-- One pass of the scan inside `ParetoFront.add_solution` (pareto_utils.py:46-59):
walks the existing solutions; stops at the first member that dominates the
candidate (Python `break`), drops every member the candidate dominates
(collected in `to_remove` and popped afterwards — note the pops happen even
when the scan broke early), and keeps the rest.  Returns the `dominated`
flag together with the surviving solutions. -/
def addScan {μ : Type} (objectives : List ℚ) :
    List (List ℚ × μ) → Bool × List (List ℚ × μ)
  | [] => (false, [])
  | s :: rest =>
    if dominates s.1 objectives then (true, s :: rest)
    else if dominates objectives s.1 then addScan objectives rest
    else
      let p := addScan objectives rest
      (p.1, s :: p.2)

/-- `ParetoFront.add_solution` (pareto_utils.py:36-66): discard the candidate
if some existing solution dominates it, remove every existing solution the
candidate dominates, and append the candidate if it was not dominated. -/
def add_solution {μ : Type} (front : List (List ℚ × μ))
    (objectives : List ℚ) (metadata : μ) : List (List ℚ × μ) :=
  let p := addScan objectives front
  if p.1 then p.2 else p.2 ++ [(objectives, metadata)]

/-- A front obtained from the empty front by a finite sequence of
`add_solution` calls. -/
def runAdds {μ : Type} (inputs : List (List ℚ × μ)) : List (List ℚ × μ) :=
  inputs.foldl (fun f p => add_solution f p.1 p.2) []

/-- Mutual non-domination of all members of a front. -/
def NonDom {μ : Type} (front : List (List ℚ × μ)) : Prop :=
  front.Pairwise fun a b => dominates a.1 b.1 = false ∧ dominates b.1 a.1 = false

/-- The ordering used to model `np.argsort(values)`: indices compared by key,
equal keys in original index order (the stable argsort).  Descending argsorts
(`np.argsort(-values)`) are obtained by instantiating the key in the dual
order. -/
def keyOrd {β : Type} [LinearOrder β] (key : ℕ → β) (i j : ℕ) : Prop :=
  key i < key j ∨ (key i = key j ∧ i ≤ j)

instance {β : Type} [LinearOrder β] (key : ℕ → β) : DecidableRel (keyOrd key) :=
  fun i j => by unfold keyOrd; infer_instance

instance {β : Type} [LinearOrder β] (key : ℕ → β) : IsTotal ℕ (keyOrd key) := by
  constructor
  intro i j
  rcases lt_trichotomy (key i) (key j) with h | h | h
  · exact Or.inl (Or.inl h)
  · rcases le_total i j with hij | hij
    · exact Or.inl (Or.inr ⟨h, hij⟩)
    · exact Or.inr (Or.inr ⟨h.symm, hij⟩)
  · exact Or.inr (Or.inl h)

instance {β : Type} [LinearOrder β] (key : ℕ → β) : IsTrans ℕ (keyOrd key) := by
  constructor
  intro i j k hij hjk
  rcases hij with h1 | ⟨h1, h1'⟩ <;> rcases hjk with h2 | ⟨h2, h2'⟩
  · exact Or.inl (h1.trans h2)
  · exact Or.inl (h2 ▸ h1)
  · exact Or.inl (h1 ▸ h2)
  · exact Or.inr ⟨h1.trans h2, h1'.trans h2'⟩

/-- Model of `np.argsort` over `n` values given by `key`: the list of indices
`0, …, n-1` stably sorted by key. -/
def argsort {β : Type} [LinearOrder β] (key : ℕ → β) (n : ℕ) : List ℕ :=
  List.insertionSort (keyOrd key) (List.range n)

/-- `objectives[i, d]` for the `n × num_objectives` objectives array
(out-of-range reads, which raise in NumPy, default to `0`; no claim
exercises them). -/
def colKey (objs : List (List ℚ)) (d i : ℕ) : ℚ := (objs.getD i []).getD d 0

/-- The body of the per-objective loop of
`ParetoFront.compute_crowding_distance` (pareto_utils.py:112-130): argsort the
solutions by objective `d`, give the two boundary solutions infinite distance,
and (unless the value range is zero) add the normalised neighbour gap to every
interior solution. -/
def crowdingInterior (objs : List (List ℚ)) (d n : ℕ) (sorted : List ℕ)
    (cds2 : List (WithTop ℚ)) : List (WithTop ℚ) :=
  if colKey objs d (sorted.getLastD 0) - colKey objs d (sorted.headD 0) = 0 then
    cds2
  else
    (List.range (n - 2)).foldl (fun c k =>
      c.set (sorted.getD (k + 1) 0)
        (c.getD (sorted.getD (k + 1) 0) 0 +
          (((colKey objs d (sorted.getD (k + 2) 0) - colKey objs d (sorted.getD k 0)) /
            (colKey objs d (sorted.getLastD 0) - colKey objs d (sorted.headD 0)) : ℚ) :
            WithTop ℚ))) cds2

def crowdingStep (objs : List (List ℚ)) (n : ℕ) (cds : List (WithTop ℚ))
    (d : ℕ) : List (WithTop ℚ) :=
  crowdingInterior objs d n (argsort (colKey objs d) n)
    ((cds.set ((argsort (colKey objs d) n).headD 0) ⊤).set
      ((argsort (colKey objs d) n).getLastD 0) ⊤)

/-- `ParetoFront.compute_crowding_distance` (pareto_utils.py:94-132) on the
objectives array: all-infinite for fronts of at most two solutions, otherwise
the per-objective accumulation starting from the zero vector. -/
def compute_crowding (numObjectives : ℕ) (objs : List (List ℚ)) :
    List (WithTop ℚ) :=
  let n := objs.length
  if n ≤ 2 then List.replicate n ⊤
  else (List.range numObjectives).foldl (crowdingStep objs n) (List.replicate n 0)

/-- `ParetoFront.compute_crowding_distance` on a front
(`get_objectives_array` drops the metadata). -/
def compute_crowding_distance {μ : Type} (numObjectives : ℕ)
    (front : List (List ℚ × μ)) : List (WithTop ℚ) :=
  compute_crowding numObjectives (front.map (·.1))

/-- `ParetoFront.select_sparse_solutions` (pareto_utils.py:134-159): if the
front has at most `n_select` members, return every index paired with `np.inf`;
otherwise return the first `n_select` indices of the descending stable argsort
of the crowding distances, each paired with its crowding distance. -/
def select_sparse_solutions {μ : Type} (numObjectives : ℕ)
    (front : List (List ℚ × μ)) (n_select : ℕ) : List (ℕ × WithTop ℚ) :=
  if front.length ≤ n_select then
    (List.range front.length).map fun i => (i, (⊤ : WithTop ℚ))
  else
    let cds := compute_crowding_distance numObjectives front
    let sortedIndices :=
      argsort (fun i => OrderDual.toDual (cds.getD i 0)) front.length
    (sortedIndices.take n_select).map fun i => (i, cds.getD i 0)

/-- A concrete mutually non-dominating front of three members used to witness
C8. -/
def frontC8 : List (List ℚ × ℕ) :=
  [([0, 4, 1], 0), ([1, 2, 2], 1), ([2, 0, 3], 2)]

/-- A concrete mutually non-dominating front of three members used for C7:
its middle member has the finite crowding distance `3`. -/
def frontC7 : List (List ℚ × ℕ) :=
  [([0, 4, 1], 0), ([1, 2, 2], 1), ([2, 0, 3], 2)]

end Pareto

namespace ECMR

/-- A VM request as consumed by the schedulers (the dict keys `vm_id`,
`num_cpus`, `ram_mb`; the remaining keys — timestamps, execution time, mips —
are never read by the scheduling code). -/
structure Vm where
  vm_id : ℕ
  num_cpus : ℕ
  ram_mb : ℕ
deriving DecidableEq

/-- The `datacenter_type` field: `'DG'` (green) or `'DB'` (brown). -/
inductive DCType
  | DG
  | DB
deriving DecidableEq

/-- The `Datacenter` dataclass of ecmr_baseline.py:24-106.  `used_cpus` and
`used_ram_mb` are Python ints that `release_vm` can drive negative, hence
`ℤ`.  Pool identifiers are strings in the source (`'DC_IT'`, …); they are
modelled as naturals, which preserves everything the schedulers use about
them: equality (dict keying) and the total lexicographic order. -/
structure Datacenter where
  id : ℕ
  name : String
  country : String
  latitude : ℚ
  longitude : ℚ
  num_servers : ℕ
  cpu_per_server : ℕ
  ram_per_server_mb : ℕ
  power_idle_w : ℚ
  power_max_w : ℚ
  pue : ℚ
  renewable_generation_mw : ℚ := 0
  carbon_intensity_gco2_kwh : ℚ := 0
  renewable_pct : ℚ := 0
  datacenter_type : DCType := DCType.DB
  used_cpus : ℤ := 0
  used_ram_mb : ℤ := 0
  active_vms : List ℕ := []
deriving DecidableEq

/-- `Datacenter.total_cpus` (ecmr_baseline.py:54-56). -/
def Datacenter.total_cpus (dc : Datacenter) : ℤ :=
  (dc.num_servers : ℤ) * dc.cpu_per_server

/-- `Datacenter.total_ram_mb` (ecmr_baseline.py:58-60). -/
def Datacenter.total_ram_mb (dc : Datacenter) : ℤ :=
  (dc.num_servers : ℤ) * dc.ram_per_server_mb

/-- `Datacenter.available_cpus` (ecmr_baseline.py:62-64). -/
def Datacenter.available_cpus (dc : Datacenter) : ℤ :=
  dc.total_cpus - dc.used_cpus

/-- `Datacenter.available_ram_mb` (ecmr_baseline.py:66-68). -/
def Datacenter.available_ram_mb (dc : Datacenter) : ℤ :=
  dc.total_ram_mb - dc.used_ram_mb

/-- `Datacenter.cpu_utilization` (ecmr_baseline.py:70-72). -/
def Datacenter.cpu_utilization (dc : Datacenter) : ℚ :=
  if 0 < dc.total_cpus then (dc.used_cpus : ℚ) / (dc.total_cpus : ℚ) else 0

/-- `Datacenter.can_host_vm` (ecmr_baseline.py:78-81): both CPU and RAM
headroom must be sufficient. -/
def Datacenter.can_host_vm (dc : Datacenter) (vm : Vm) : Bool :=
  decide ((vm.num_cpus : ℤ) ≤ dc.available_cpus) &&
  decide ((vm.ram_mb : ℤ) ≤ dc.available_ram_mb)

/-- `Datacenter.allocate_vm` (ecmr_baseline.py:83-87): unconditionally bumps
the used counters and records the VM id. -/
def Datacenter.allocate_vm (dc : Datacenter) (vm : Vm) : Datacenter :=
  { dc with
    used_cpus := dc.used_cpus + vm.num_cpus
    used_ram_mb := dc.used_ram_mb + vm.ram_mb
    active_vms := dc.active_vms ++ [vm.vm_id] }

/-- `Datacenter.release_vm` (ecmr_baseline.py:89-94): unconditionally
subtracts the VM's resources (no assertion, no clamping) and removes the
first matching id from `active_vms` if present. -/
def Datacenter.release_vm (dc : Datacenter) (vm : Vm) : Datacenter :=
  { dc with
    used_cpus := dc.used_cpus - vm.num_cpus
    used_ram_mb := dc.used_ram_mb - vm.ram_mb
    active_vms := dc.active_vms.erase vm.vm_id }

/-- An allocate or release call on a pool. -/
inductive PoolOp
  | alloc (vm : Vm)
  | rel (vm : Vm)
deriving DecidableEq

/-- Applying one allocate/release call. -/
def applyOp (dc : Datacenter) : PoolOp → Datacenter
  | PoolOp.alloc vm => dc.allocate_vm vm
  | PoolOp.rel vm => dc.release_vm vm

/-- Applying a sequence of allocate/release calls. -/
def applyOps (dc : Datacenter) (ops : List PoolOp) : Datacenter :=
  ops.foldl applyOp dc

/-- The hypothesis of claim C2 as stated: the trace never releases a workload
that was not previously allocated (each release consumes one matching earlier
allocation); allocations are unrestricted. -/
def releasesLegal (outstanding : List Vm) : List PoolOp → Bool
  | [] => true
  | PoolOp.alloc vm :: ops => releasesLegal (vm :: outstanding) ops
  | PoolOp.rel vm :: ops =>
      outstanding.contains vm && releasesLegal (outstanding.erase vm) ops

/-- The amended hypothesis: additionally, every allocate is performed only
after a passing `can_host_vm` check on the current pool state, as the
scheduler does before calling `allocate_vm`. -/
def legalOps (dc : Datacenter) (outstanding : List Vm) : List PoolOp → Bool
  | [] => true
  | PoolOp.alloc vm :: ops =>
      dc.can_host_vm vm && legalOps (dc.allocate_vm vm) (vm :: outstanding) ops
  | PoolOp.rel vm :: ops =>
      outstanding.contains vm && legalOps (dc.release_vm vm) (outstanding.erase vm) ops

/-- A 1-CPU pool used in the C2 counterexample. -/
def dcSmall : Datacenter :=
  { id := 1, name := "A", country := "X", latitude := 0, longitude := 0,
    num_servers := 1, cpu_per_server := 1, ram_per_server_mb := 1024,
    power_idle_w := 200, power_max_w := 400, pue := 1 }

/-- The metrics dict of `ECMRScheduler.__init__` (ecmr_baseline.py:149-160),
restricted to the fields `schedule_vm` reads or writes plus the energy/carbon
accumulators (which `schedule_vm` never touches). -/
structure Metrics where
  total_vms : ℕ := 0
  placed_vms : ℕ := 0
  failed_vms : ℕ := 0
  total_energy_kwh : ℚ := 0
  renewable_energy_kwh : ℚ := 0
  carbon_emissions_kg : ℚ := 0
  total_response_time_ms : ℚ := 0
  latency_rejections : ℕ := 0
  res_rejections : ℕ := 0
  placement_decisions : List (ℕ × ℕ) := []
deriving DecidableEq

/-- `ECMRScheduler` (ecmr_baseline.py:127-160).  The `datacenters` dict
(keyed by id, insertion-ordered) is modelled as a list; `user_location`
is folded into the abstract distance function `hav` passed to the
operations.  `placement_decisions` stores the scheduled VM ids (the full
record of ecmr_baseline.py:383-391 carries no information the claims need
beyond the fields exposed in the return value). -/
structure ECMRScheduler where
  datacenters : List Datacenter
  w1 : ℚ
  w2 : ℚ
  w3 : ℚ
  latency_threshold_ms : ℚ
  metrics : Metrics := {}
deriving DecidableEq

/-- `ECMRScheduler.calculate_distance` (ecmr_baseline.py:162-179): the
haversine distance from the user location to the datacenter, abstracted as
`hav` applied to the datacenter's coordinates. -/
def calculate_distance (hav : ℚ → ℚ → ℚ) (dc : Datacenter) : ℚ :=
  hav dc.latitude dc.longitude

/-- `ECMRScheduler.classify_datacenters` (ecmr_baseline.py:181-196): split
the owned pools into green (`datacenter_type = 'DG'`) and brown, preserving
iteration order. -/
def classify_datacenters (sch : ECMRScheduler) : List Datacenter × List Datacenter :=
  (sch.datacenters.filter fun dc => decide (dc.datacenter_type = DCType.DG),
   sch.datacenters.filter fun dc => !decide (dc.datacenter_type = DCType.DG))

/-- `ECMRScheduler.estimate_vm_energy_kwh` (ecmr_baseline.py:227-236):
50 W per requested CPU core, converted to kWh. -/
def estimate_vm_energy_kwh (vm : Vm) (execution_hours : ℚ) : ℚ :=
  ((vm.num_cpus : ℚ) * 50 * execution_hours) / 1000

/-- `ECMRScheduler.check_res_availability` (ecmr_baseline.py:238-258): brown
pools pass trivially; a green pool passes iff its renewable generation (MW,
converted to kWh over one hour) strictly exceeds the VM's estimated hourly
energy. -/
def check_res_availability (dc : Datacenter) (vm : Vm) : Bool :=
  if dc.datacenter_type = DCType.DB then true
  else decide (estimate_vm_energy_kwh vm 1 < dc.renewable_generation_mw * 1000)

/-- `ECMRScheduler.calculate_weighted_score` (ecmr_baseline.py:260-293):
`w1 * norm_energy + w2 * norm_carbon + w3 * norm_latency`, lower is better. -/
def calculate_weighted_score (hav : ℚ → ℚ → ℚ) (sch : ECMRScheduler)
    (dc : Datacenter) (vm : Vm) : ℚ :=
  let current_util := dc.cpu_utilization
  let new_util := ((dc.used_cpus : ℚ) + (vm.num_cpus : ℚ)) / (dc.total_cpus : ℚ)
  let delta_util := new_util - current_util
  let incremental_energy := (dc.power_max_w - dc.power_idle_w) * delta_util * dc.pue
  let carbon_intensity := dc.carbon_intensity_gco2_kwh
  let distance_km := calculate_distance hav dc
  let latency_ms := distance_km * (0.1 : ℚ)
  let norm_energy := incremental_energy / 1000
  let norm_carbon := carbon_intensity / 500
  let norm_latency := latency_ms / 100
  sch.w1 * norm_energy + sch.w2 * norm_carbon + sch.w3 * norm_latency

/-- A surviving candidate (the dict appended at ecmr_baseline.py:337-343 /
361-367). -/
structure Candidate where
  datacenter : Datacenter
  score : ℚ
  distance_km : ℚ
  latency_ms : ℚ
  ctype : DCType
deriving DecidableEq

/-- The loop body of pass 1 of `ECMRScheduler.schedule_vm`
(ecmr_baseline.py:315-343) for one green pool: skip pools without capacity,
reject on latency (counting the rejection), reject on renewable availability
(counting the rejection), score the survivors. -/
def greenStep (hav : ℚ → ℚ → ℚ) (sch : ECMRScheduler) (vm : Vm)
    (acc : List Candidate × ℕ × ℕ) (dc : Datacenter) : List Candidate × ℕ × ℕ :=
  if !(dc.can_host_vm vm) then acc
  else if sch.latency_threshold_ms < calculate_distance hav dc * (0.1 : ℚ) then
    (acc.1, acc.2.1 + 1, acc.2.2)
  else if !(check_res_availability dc vm) then
    (acc.1, acc.2.1, acc.2.2 + 1)
  else
    (acc.1 ++ [{ datacenter := dc,
                 score := calculate_weighted_score hav sch dc vm,
                 distance_km := calculate_distance hav dc,
                 latency_ms := calculate_distance hav dc * (0.1 : ℚ),
                 ctype := DCType.DG }],
     acc.2.1, acc.2.2)

/-- Pass 1 of `ECMRScheduler.schedule_vm` over the green pools.  Returns
(candidates, latency rejections, RES rejections). -/
def evalGreenPass (hav : ℚ → ℚ → ℚ) (sch : ECMRScheduler) (vm : Vm)
    (dcs : List Datacenter) : List Candidate × ℕ × ℕ :=
  dcs.foldl (greenStep hav sch vm) ([], 0, 0)

/-- The loop body of pass 2 of `ECMRScheduler.schedule_vm`
(ecmr_baseline.py:347-367) for one brown pool: identical to the green body
but with no renewable-availability check. -/
def brownStep (hav : ℚ → ℚ → ℚ) (sch : ECMRScheduler) (vm : Vm)
    (acc : List Candidate × ℕ × ℕ) (dc : Datacenter) : List Candidate × ℕ × ℕ :=
  if !(dc.can_host_vm vm) then acc
  else if sch.latency_threshold_ms < calculate_distance hav dc * (0.1 : ℚ) then
    (acc.1, acc.2.1 + 1, acc.2.2)
  else
    (acc.1 ++ [{ datacenter := dc,
                 score := calculate_weighted_score hav sch dc vm,
                 distance_km := calculate_distance hav dc,
                 latency_ms := calculate_distance hav dc * (0.1 : ℚ),
                 ctype := DCType.DB }],
     acc.2.1, acc.2.2)

/-- Pass 2 of `ECMRScheduler.schedule_vm` over the brown pools. -/
def evalBrownPass (hav : ℚ → ℚ → ℚ) (sch : ECMRScheduler) (vm : Vm)
    (dcs : List Datacenter) : List Candidate × ℕ × ℕ :=
  dcs.foldl (brownStep hav sch vm) ([], 0, 0)

/-- The candidate-generation phase of `ECMRScheduler.schedule_vm`
(ecmr_baseline.py:309-367): the brown pass runs only when the green pass
produced no candidate; the rejection counters of both passes accumulate. -/
def baseline_passes (hav : ℚ → ℚ → ℚ) (sch : ECMRScheduler) (vm : Vm) :
    List Candidate × ℕ × ℕ :=
  let dgdb := classify_datacenters sch
  let green := evalGreenPass hav sch vm dgdb.1
  if green.1.isEmpty then
    let brown := evalBrownPass hav sch vm dgdb.2
    (brown.1, green.2.1 + brown.2.1, green.2.2 + brown.2.2)
  else green

/-- `ECMRScheduler.schedule_vm` selection and bookkeeping
(ecmr_baseline.py:369-409): stable-sort the candidates by score (Python's
`list.sort` is stable), pick the first, allocate the VM on that pool (the
pool is updated under its dict key, i.e. by id) and update the metrics;
with no candidate, count the failure.  Returns the `(datacenter_id, success)`
pair together with the updated scheduler state. -/
def schedule_vm (hav : ℚ → ℚ → ℚ) (sch : ECMRScheduler) (vm : Vm)
    (current_time : ℕ) : (Option ℕ × Bool) × ECMRScheduler :=
  let res := baseline_passes hav sch vm
  match (List.insertionSort (fun a b : Candidate => a.score ≤ b.score) res.1).head? with
  | some best =>
    ((some best.datacenter.id, true),
     { sch with
       datacenters := sch.datacenters.map fun dc =>
         if dc.id = best.datacenter.id then dc.allocate_vm vm else dc
       metrics := { sch.metrics with
         placed_vms := sch.metrics.placed_vms + 1
         total_response_time_ms := sch.metrics.total_response_time_ms + best.latency_ms
         latency_rejections := sch.metrics.latency_rejections + res.2.1
         res_rejections := sch.metrics.res_rejections + res.2.2
         placement_decisions :=
           sch.metrics.placement_decisions ++ [(vm.vm_id, current_time)] } })
  | none =>
    ((none, false),
     { sch with
       metrics := { sch.metrics with
         failed_vms := sch.metrics.failed_vms + 1
         latency_rejections := sch.metrics.latency_rejections + res.2.1
         res_rejections := sch.metrics.res_rejections + res.2.2
         placement_decisions :=
           sch.metrics.placement_decisions ++ [(vm.vm_id, current_time)] } })

/-- The first element of a candidate list attaining the minimal score; this
is what "stable sort by score, take the head" computes. -/
def firstMinCand : List Candidate → Option Candidate
  | [] => none
  | a :: l =>
    match firstMinCand l with
    | none => some a
    | some b => if a.score ≤ b.score then some a else some b

/-- A green pool with id 2, registered first, for the C5 counterexample. -/
def dcZ : Datacenter :=
  { id := 2, name := "Z", country := "X", latitude := 0, longitude := 0,
    num_servers := 1, cpu_per_server := 4, ram_per_server_mb := 4096,
    power_idle_w := 200, power_max_w := 400, pue := 1,
    renewable_generation_mw := 1, carbon_intensity_gco2_kwh := 100,
    renewable_pct := 80, datacenter_type := DCType.DG }

/-- An identical green pool with the lower id 1, registered second. -/
def dcA : Datacenter := { dcZ with id := 1, name := "A" }

/-- A scheduler owning `[dcZ, dcA]` in that insertion order. -/
def schC5 : ECMRScheduler :=
  { datacenters := [dcZ, dcA], w1 := 1, w2 := 1, w3 := 1,
    latency_threshold_ms := 100 }

/-- A distance model placing the user on top of every datacenter. -/
def hav0 : ℚ → ℚ → ℚ := fun _ _ => 0

def vm0 : Vm := ⟨1, 2, 1024⟩

/-- Python's `round` to an integer: round-half-to-even (banker's rounding),
exact on `ℚ`. -/
def roundHalfEven (q : ℚ) : ℤ :=
  if q - ⌊q⌋ < 1/2 then ⌊q⌋
  else if 1/2 < q - ⌊q⌋ then ⌊q⌋ + 1
  else if Even ⌊q⌋ then ⌊q⌋ else ⌊q⌋ + 1

/-- Python's `round(x, ndigits)`. -/
def pyRound (ndigits : ℕ) (q : ℚ) : ℚ :=
  (roundHalfEven (q * 10 ^ ndigits) : ℚ) / 10 ^ ndigits

/-- The rejection-reason strings appended in
`ECMRCompleteScheduler.schedule_vm` (ecmr_cloudsim_complete.py:505-512). -/
inductive RejReason
  | insufficient_capacity
  | latency_exceeded
  | insufficient_res
deriving DecidableEq

/-- One per-pool evaluation dict of `ECMRCompleteScheduler.schedule_vm`
(ecmr_cloudsim_complete.py:482-521). -/
structure CEvaluation where
  datacenter_id : ℕ
  datacenter_type : DCType
  distance_km : ℚ
  latency_ms : ℚ
  carbon_intensity : ℚ
  renewable_pct : ℚ
  renewable_mw : ℚ
  can_host : Bool
  latency_ok : Bool
  res_ok : Bool
  weighted_score : Option ℚ
  selected : Bool
  rejection_reason : List RejReason
deriving DecidableEq

/-- A placement decision of the complete scheduler
(ecmr_cloudsim_complete.py:544-566): the failure decision carries no
`datacenter_type` key, modelled as `none`. -/
structure CDecision where
  vm_id : ℕ
  selected_datacenter : Option ℕ
  datacenter_type : Option DCType
  all_dc_evaluations : List CEvaluation
  timestamp : ℕ
  success : Bool
deriving DecidableEq

/-- The metrics dict of `ECMRCompleteScheduler.__init__`
(ecmr_cloudsim_complete.py:292-305), restricted to the fields `schedule_vm`
reads or writes. -/
structure CMetrics where
  total_vms : ℕ := 0
  placed_vms : ℕ := 0
  failed_vms : ℕ := 0
  total_response_time_ms : ℚ := 0
  latency_rejections : ℕ := 0
  res_rejections : ℕ := 0
  placement_decisions : List CDecision := []
deriving DecidableEq

/-- `ECMRCompleteScheduler` (ecmr_cloudsim_complete.py:270-305). -/
structure CompleteScheduler where
  datacenters : List Datacenter
  w1 : ℚ
  w2 : ℚ
  w3 : ℚ
  latency_threshold_ms : ℚ
  metrics : CMetrics := {}
deriving DecidableEq

/-- `ECMRCompleteScheduler.classify_datacenters`
(ecmr_cloudsim_complete.py:349-363). -/
def classify_datacenters_complete (sch : CompleteScheduler) :
    List Datacenter × List Datacenter :=
  (sch.datacenters.filter fun dc => decide (dc.datacenter_type = DCType.DG),
   sch.datacenters.filter fun dc => !decide (dc.datacenter_type = DCType.DG))

/-- `ECMRCompleteScheduler.sort_dg_by_distance`
(ecmr_cloudsim_complete.py:365-372): Python's `sorted` is stable. -/
def sort_dg_by_distance (hav : ℚ → ℚ → ℚ) (dgs : List Datacenter) :
    List Datacenter :=
  List.insertionSort
    (fun a b : Datacenter => calculate_distance hav a ≤ calculate_distance hav b) dgs

/-- `ECMRCompleteScheduler.calculate_weighted_score`
(ecmr_cloudsim_complete.py:421-460): the w2 component combines carbon
intensity and (inverted) renewable percentage, and latency is normalised by
200 ms. -/
def calculate_weighted_score_complete (hav : ℚ → ℚ → ℚ)
    (sch : CompleteScheduler) (dc : Datacenter) (vm : Vm) : ℚ :=
  let current_util := dc.cpu_utilization
  let new_util := ((dc.used_cpus : ℚ) + (vm.num_cpus : ℚ)) / (dc.total_cpus : ℚ)
  let delta_util := new_util - current_util
  let incremental_energy := (dc.power_max_w - dc.power_idle_w) * delta_util * dc.pue
  let latency_ms := calculate_distance hav dc * (0.1 : ℚ)
  let norm_energy := incremental_energy / 1000
  let norm_carbon := dc.carbon_intensity_gco2_kwh / 500
  let norm_renewable := 1 - dc.renewable_pct / 100
  let norm_latency := latency_ms / 200
  let sustainability_score := (0.5 : ℚ) * norm_carbon + (0.5 : ℚ) * norm_renewable
  sch.w1 * norm_energy + sch.w2 * sustainability_score + sch.w3 * norm_latency

/-- The per-pool evaluation of `ECMRCompleteScheduler.schedule_vm`
(ecmr_cloudsim_complete.py:479-521): every pool is evaluated; all three
checks are recorded, the rejection reasons accumulated, and a (rounded)
weighted score computed only when all checks pass. -/
def evalDatacenter (hav : ℚ → ℚ → ℚ) (sch : CompleteScheduler) (vm : Vm)
    (dc : Datacenter) : CEvaluation :=
  let distance_km := calculate_distance hav dc
  let latency_ms := distance_km * (0.1 : ℚ)
  let can_host := dc.can_host_vm vm
  let latency_ok := decide (latency_ms ≤ sch.latency_threshold_ms)
  let res_ok :=
    if dc.datacenter_type = DCType.DG then check_res_availability dc vm else true
  let rej1 := if can_host then ([] : List RejReason)
              else [RejReason.insufficient_capacity]
  let rej2 := if latency_ok then rej1 else rej1 ++ [RejReason.latency_exceeded]
  let rej3 := if res_ok then rej2 else rej2 ++ [RejReason.insufficient_res]
  { datacenter_id := dc.id
    datacenter_type := dc.datacenter_type
    distance_km := pyRound 2 distance_km
    latency_ms := pyRound 2 latency_ms
    carbon_intensity := pyRound 2 dc.carbon_intensity_gco2_kwh
    renewable_pct := pyRound 1 dc.renewable_pct
    renewable_mw := pyRound 1 dc.renewable_generation_mw
    can_host := can_host
    latency_ok := latency_ok
    res_ok := res_ok
    weighted_score :=
      if can_host && latency_ok && res_ok then
        some (pyRound 4 (calculate_weighted_score_complete hav sch dc vm))
      else none
    selected := false
    rejection_reason := rej3 }

/-- The selection marking of ecmr_cloudsim_complete.py:531-535: set
`selected` on the first evaluation carrying the chosen id. -/
def markSelected : List CEvaluation → ℕ → List CEvaluation
  | [], _ => []
  | e :: rest, did =>
    if e.datacenter_id = did then { e with selected := true } :: rest
    else e :: markSelected rest did

/-- `ECMRCompleteScheduler.schedule_vm` (ecmr_cloudsim_complete.py:464-568):
one single pass evaluating green pools (distance-sorted) followed by brown
pools, candidates are the evaluations with a score, stable-sorted by score;
the winner's pool is allocated, otherwise the failure is counted.  Returns
`(datacenter_id, success, decision)` with the new scheduler state. -/
def schedule_vm_complete (hav : ℚ → ℚ → ℚ) (sch : CompleteScheduler) (vm : Vm)
    (current_time : ℕ) : (Option ℕ × Bool × CDecision) × CompleteScheduler :=
  let m0 := { sch.metrics with total_vms := sch.metrics.total_vms + 1 }
  let dgdb := classify_datacenters_complete sch
  let ordered := sort_dg_by_distance hav dgdb.1 ++ dgdb.2
  let evals := ordered.map (evalDatacenter hav sch vm)
  let m1 := { m0 with
    latency_rejections :=
      m0.latency_rejections +
        (evals.filter fun e : CEvaluation => !e.latency_ok).length
    res_rejections :=
      m0.res_rejections +
        (evals.filter fun e : CEvaluation => !e.res_ok).length }
  let candidates := evals.filter fun e : CEvaluation => e.weighted_score.isSome
  match (List.insertionSort (fun a b : CEvaluation =>
      a.weighted_score.getD 0 ≤ b.weighted_score.getD 0) candidates).head? with
  | some best =>
    let decision : CDecision :=
      { vm_id := vm.vm_id
        selected_datacenter := some best.datacenter_id
        datacenter_type := some best.datacenter_type
        all_dc_evaluations := markSelected evals best.datacenter_id
        timestamp := current_time
        success := true }
    ((some best.datacenter_id, true, decision),
     { sch with
       datacenters := sch.datacenters.map fun dc =>
         if dc.id = best.datacenter_id then dc.allocate_vm vm else dc
       metrics := { m1 with
         placed_vms := m1.placed_vms + 1
         total_response_time_ms := m1.total_response_time_ms + best.latency_ms
         placement_decisions := m1.placement_decisions ++ [decision] } })
  | none =>
    let decision : CDecision :=
      { vm_id := vm.vm_id
        selected_datacenter := none
        datacenter_type := none
        all_dc_evaluations := evals
        timestamp := current_time
        success := false }
    ((none, false, decision),
     { sch with
       metrics := { m1 with
         failed_vms := m1.failed_vms + 1
         placement_decisions := m1.placement_decisions ++ [decision] } })

/-- The green pool of the C4 counterexample: passes capacity, latency and
renewable checks, score `1/4` under weights `(0, 0, 1)`. -/
def dcG : Datacenter :=
  { id := 1, name := "G", country := "X", latitude := 500, longitude := 0,
    num_servers := 1, cpu_per_server := 4, ram_per_server_mb := 4096,
    power_idle_w := 200, power_max_w := 400, pue := 1,
    renewable_generation_mw := 1, carbon_intensity_gco2_kwh := 0,
    renewable_pct := 80, datacenter_type := DCType.DG }

/-- The brown pool of the C4 counterexample: also feasible, score `0`. -/
def dcB : Datacenter :=
  { id := 2, name := "B", country := "X", latitude := 0, longitude := 0,
    num_servers := 1, cpu_per_server := 4, ram_per_server_mb := 4096,
    power_idle_w := 200, power_max_w := 400, pue := 1,
    renewable_generation_mw := 0, carbon_intensity_gco2_kwh := 0,
    renewable_pct := 10, datacenter_type := DCType.DB }

/-- A complete scheduler caring only about latency, owning a green and a
brown pool. -/
def schC4 : CompleteScheduler :=
  { datacenters := [dcG, dcB], w1 := 0, w2 := 0, w3 := 1,
    latency_threshold_ms := 100 }

/-- A distance model in which the distance equals the latitude. -/
def havLat : ℚ → ℚ → ℚ := fun lat _ => lat

/-- A pool too small for the C6 witness request. -/
def schC6 : CompleteScheduler :=
  { datacenters := [{ dcB with id := 5, cpu_per_server := 1 }],
    w1 := 1, w2 := 1, w3 := 1, latency_threshold_ms := 100 }

end ECMR

namespace Pareto

theorem addScan_sublist {μ : Type} (o : List ℚ) :
    ∀ front : List (List ℚ × μ), (addScan o front).2.Sublist front := by
  intro front
  induction front with
  | nil => simp [addScan]
  | cons s rest ih =>
    by_cases h1 : dominates s.1 o = true
    · simp [addScan, h1]
    · by_cases h2 : dominates o s.1 = true
      · simp only [addScan, h1, h2, if_true, if_false, Bool.false_eq_true]
        exact ih.cons s
      · simp only [addScan, h1, h2, if_false, Bool.false_eq_true]
        exact ih.cons₂ s

theorem addScan_not_dominated {μ : Type} (o : List ℚ) :
    ∀ front : List (List ℚ × μ), (addScan o front).1 = false →
      ∀ s ∈ (addScan o front).2, dominates s.1 o = false ∧ dominates o s.1 = false := by
  intro front
  induction front with
  | nil => intro _ s hs; simp [addScan] at hs
  | cons a rest ih =>
    intro hfalse s hs
    by_cases h1 : dominates a.1 o = true
    · simp [addScan, h1] at hfalse
    · by_cases h2 : dominates o a.1 = true
      · simp only [addScan, h1, h2, if_true, if_false, Bool.false_eq_true] at hfalse hs
        exact ih hfalse s hs
      · simp only [addScan, h1, h2, if_false, Bool.false_eq_true] at hfalse hs
        rw [List.mem_cons] at hs
        rcases hs with rfl | hs
        · exact ⟨Bool.eq_false_iff.mpr h1, Bool.eq_false_iff.mpr h2⟩
        · exact ih hfalse s hs

theorem nonDom_add_solution {μ : Type} (front : List (List ℚ × μ))
    (o : List ℚ) (m : μ) (h : NonDom front) : NonDom (add_solution front o m) := by
  unfold add_solution NonDom
  have hsub : (addScan o front).2.Sublist front := addScan_sublist o front
  have hpair : NonDom (addScan o front).2 := List.Pairwise.sublist hsub h
  by_cases hd : (addScan o front).1 = true
  · simpa [hd] using hpair
  · have hd' : (addScan o front).1 = false := Bool.eq_false_iff.mpr hd
    simp only [hd', if_false, Bool.false_eq_true]
    rw [List.pairwise_append]
    refine ⟨hpair, List.pairwise_singleton _ _, ?_⟩
    intro a ha b hb
    simp only [List.mem_singleton] at hb
    subst hb
    exact addScan_not_dominated o front hd' a ha

/-- **C1.** Starting from the empty Pareto front, after any finite sequence of
`add_solution` calls with arbitrary objective vectors and metadata, no member
of the resulting front dominates another member of the front. -/
theorem front_nondomination_invariant {μ : Type} (inputs : List (List ℚ × μ)) :
    ((runAdds inputs).Pairwise fun a b =>
      dominates a.1 b.1 = false ∧ dominates b.1 a.1 = false) := by
  suffices h : ∀ f : List (List ℚ × μ), NonDom f →
      NonDom (inputs.foldl (fun f p => add_solution f p.1 p.2) f) by
    exact h [] (List.Pairwise.nil)
  induction inputs with
  | nil => intro f hf; simpa using hf
  | cons a rest ih =>
    intro f hf
    exact ih _ (nonDom_add_solution f a.1 a.2 hf)

theorem zip_self_any_lt_false :
    ∀ u : List ℚ, ((u.zip u).any fun p => decide (p.1 < p.2)) = false := by
  intro u
  induction u with
  | nil => rfl
  | cons a rest ih => simp [List.zip_cons_cons, ih]

theorem all_le_any_lt_rev_false :
    ∀ u v : List ℚ, ((v.zip u).all fun p => decide (p.1 ≤ p.2)) = true →
      ((u.zip v).any fun p => decide (p.1 < p.2)) = false := by
  intro u
  induction u with
  | nil => intro v _; cases v <;> rfl
  | cons a rest ih =>
    intro v hall
    cases v with
    | nil => rfl
    | cons b vs =>
      simp only [List.zip_cons_cons, List.all_cons, Bool.and_eq_true,
        decide_eq_true_eq] at hall
      simp only [List.zip_cons_cons, List.any_cons, Bool.or_eq_false_iff,
        decide_eq_false_iff_not, not_lt]
      exact ⟨hall.1, by simpa using ih vs hall.2⟩

theorem all_le_trans :
    ∀ u v w : List ℚ, u.length = v.length → v.length = w.length →
      ((u.zip v).all fun p => decide (p.1 ≤ p.2)) = true →
      ((v.zip w).all fun p => decide (p.1 ≤ p.2)) = true →
      ((u.zip w).all fun p => decide (p.1 ≤ p.2)) = true := by
  intro u
  induction u with
  | nil => intro v w _ _ _ _; rfl
  | cons a rest ih =>
    intro v w hl1 hl2 h1 h2
    cases v with
    | nil => simp at hl1
    | cons b vs =>
      cases w with
      | nil => simp at hl2
      | cons c ws =>
        simp only [List.length_cons, Nat.succ.injEq] at hl1 hl2
        simp only [List.zip_cons_cons, List.all_cons, Bool.and_eq_true,
          decide_eq_true_eq] at h1 h2 ⊢
        exact ⟨le_trans h1.1 h2.1, ih vs ws hl1 hl2 h1.2 h2.2⟩

theorem any_lt_trans :
    ∀ u v w : List ℚ, u.length = v.length → v.length = w.length →
      ((u.zip v).all fun p => decide (p.1 ≤ p.2)) = true →
      ((v.zip w).all fun p => decide (p.1 ≤ p.2)) = true →
      ((u.zip v).any fun p => decide (p.1 < p.2)) = true →
      ((u.zip w).any fun p => decide (p.1 < p.2)) = true := by
  intro u
  induction u with
  | nil => intro v w _ _ _ _ h; simp [List.zip_nil_left] at h
  | cons a rest ih =>
    intro v w hl1 hl2 h1 h2 hany
    cases v with
    | nil => simp at hl1
    | cons b vs =>
      cases w with
      | nil => simp at hl2
      | cons c ws =>
        simp only [List.length_cons, Nat.succ.injEq] at hl1 hl2
        simp only [List.zip_cons_cons, List.all_cons, Bool.and_eq_true,
          decide_eq_true_eq] at h1 h2
        simp only [List.zip_cons_cons, List.any_cons, Bool.or_eq_true,
          decide_eq_true_eq] at hany ⊢
        rcases hany with hlt | hany
        · exact Or.inl (lt_of_lt_of_le hlt h2.1)
        · exact Or.inr (ih vs ws hl1 hl2 h1.2 h2.2 hany)

/-- **C3.** The `_dominates` relation on objective vectors is a strict partial
order: it is irreflexive, asymmetric, and (on vectors of a common length, as
objective vectors are fixed-length tuples) transitive. -/
theorem dominates_strict_partial_order :
    (∀ u : List ℚ, dominates u u = false) ∧
    (∀ u v : List ℚ, ¬(dominates u v = true ∧ dominates v u = true)) ∧
    (∀ u v w : List ℚ, u.length = v.length → v.length = w.length →
      dominates u v = true → dominates v w = true → dominates u w = true) := by
  refine ⟨?_, ?_, ?_⟩
  · intro u
    unfold dominates
    rw [zip_self_any_lt_false]
    exact Bool.and_false _
  · intro u v h
    obtain ⟨huv, hvu⟩ := h
    unfold dominates at huv hvu
    rw [Bool.and_eq_true] at huv hvu
    have := all_le_any_lt_rev_false u v hvu.1
    rw [huv.2] at this
    exact Bool.noConfusion this
  · intro u v w hl1 hl2 huv hvw
    unfold dominates at huv hvw ⊢
    rw [Bool.and_eq_true] at huv hvw ⊢
    exact ⟨all_le_trans u v w hl1 hl2 huv.1 hvw.1,
      any_lt_trans u v w hl1 hl2 huv.1 hvw.1 huv.2⟩

theorem argsort_perm {β : Type} [LinearOrder β] (key : ℕ → β) (n : ℕ) :
    (argsort key n).Perm (List.range n) :=
  List.perm_insertionSort _ _

theorem argsort_sorted {β : Type} [LinearOrder β] (key : ℕ → β) (n : ℕ) :
    List.Sorted (keyOrd key) (argsort key n) :=
  List.sorted_insertionSort _ _

theorem argsort_length {β : Type} [LinearOrder β] (key : ℕ → β) (n : ℕ) :
    (argsort key n).length = n := by
  rw [(argsort_perm key n).length_eq, List.length_range]

theorem argsort_mem {β : Type} [LinearOrder β] (key : ℕ → β) (n i : ℕ) :
    i ∈ argsort key n ↔ i < n := by
  rw [(argsort_perm key n).mem_iff, List.mem_range]

theorem argsort_nodup {β : Type} [LinearOrder β] (key : ℕ → β) (n : ℕ) :
    (argsort key n).Nodup :=
  ((argsort_perm key n).nodup_iff).mpr (List.nodup_range n)

theorem mem_getLastD {α : Type} : ∀ (l : List α) (d : α), l ≠ [] → l.getLastD d ∈ l := by
  intro l
  induction l with
  | nil => intro d h; exact absurd rfl h
  | cons a t ih =>
    intro d _
    rw [List.getLastD_cons]
    cases t with
    | nil => exact List.mem_singleton.mpr rfl
    | cons b t2 => exact List.mem_cons_of_mem a (ih a (by simp))

theorem sorted_rel_getLastD {α : Type} {r : α → α → Prop} :
    ∀ (l : List α) (d : α), List.Sorted r l → ∀ x ∈ l,
      x = l.getLastD d ∨ r x (l.getLastD d) := by
  intro l
  induction l with
  | nil => intro d _ x hx; exact absurd hx (List.not_mem_nil x)
  | cons a t ih =>
    intro d hs x hx
    rw [List.getLastD_cons]
    rcases List.mem_cons.mp hx with rfl | hx
    · cases t with
      | nil => exact Or.inl rfl
      | cons b t2 =>
        exact Or.inr (List.rel_of_sorted_cons hs _ (mem_getLastD (b :: t2) x (by simp)))
    · exact ih a hs.of_cons x hx

/-- The stable argsort puts a unique minimiser of the key first. -/
theorem argsort_headD_unique_min {β : Type} [LinearOrder β] (key : ℕ → β)
    (n i : ℕ) (hi : i < n) (hmin : ∀ j, j < n → j ≠ i → key i < key j) :
    (argsort key n).headD 0 = i := by
  obtain ⟨h, t, hl⟩ : ∃ h t, argsort key n = h :: t := by
    cases hather : argsort key n with
    | nil =>
      have := argsort_length key n
      rw [hather] at this
      simp at this
      omega
    | cons h t => exact ⟨h, t, rfl⟩
  rw [hl, List.headD_cons]
  have hmem : i ∈ argsort key n := (argsort_mem key n i).mpr hi
  rw [hl] at hmem
  rcases List.mem_cons.mp hmem with rfl | hmem
  · rfl
  · exfalso
    have hhn : h < n := by
      have : h ∈ argsort key n := by rw [hl]; exact List.mem_cons_self h t
      exact (argsort_mem key n h).mp this
    have hne : h ≠ i := by
      intro heq
      have hnd := argsort_nodup key n
      rw [hl] at hnd
      exact (List.nodup_cons.mp hnd).1 (heq ▸ hmem)
    have hrel : keyOrd key h i := by
      have hs := argsort_sorted key n
      rw [hl] at hs
      exact List.rel_of_sorted_cons hs i hmem
    have hlt : key i < key h := hmin h hhn hne
    rcases hrel with hr | ⟨hr, _⟩
    · exact absurd hr (not_lt_of_gt hlt)
    · exact absurd hr (ne_of_gt hlt)

/-- The stable argsort puts a unique maximiser of the key last. -/
theorem argsort_getLastD_unique_max {β : Type} [LinearOrder β] (key : ℕ → β)
    (n i : ℕ) (hi : i < n) (hmax : ∀ j, j < n → j ≠ i → key j < key i) :
    (argsort key n).getLastD 0 = i := by
  have hmem : i ∈ argsort key n := (argsort_mem key n i).mpr hi
  rcases sorted_rel_getLastD (argsort key n) 0 (argsort_sorted key n) i hmem
    with h | hrel
  · exact h.symm
  · by_contra hne
    set g := (argsort key n).getLastD 0 with hg
    have hgn : g < n := by
      have : g ∈ argsort key n := by
        apply mem_getLastD
        intro hnil
        rw [hnil] at hmem
        exact List.not_mem_nil i hmem
      exact (argsort_mem key n g).mp this
    have hlt : key g < key i := hmax g hgn hne
    rcases hrel with hr | ⟨hr, _⟩
    · exact absurd hr (not_lt_of_gt hlt)
    · exact absurd hr.symm (ne_of_lt hlt)

theorem getD_ne_default_lt {α : Type} (l : List α) (j : ℕ) (d : α)
    (h : l.getD j d ≠ d) : j < l.length := by
  by_contra hge
  exact h (List.getD_eq_default l d (le_of_not_lt hge))

theorem getD_set_ne {α : Type} (l : List α) (i j : ℕ) (a d : α) (h : i ≠ j) :
    (l.set i a).getD j d = l.getD j d := by
  simp [List.getD, List.getElem?_set_ne h]

theorem getD_set_self {α : Type} (l : List α) (i : ℕ) (a d : α)
    (h : i < l.length) : (l.set i a).getD i d = a := by
  simp [List.getD, List.getElem?_set_self, h]

theorem foldl_setAdd_length (si : ℕ → ℕ) (gap : ℕ → ℚ) :
    ∀ (ks : List ℕ) (c : List (WithTop ℚ)),
      (ks.foldl (fun c k =>
        c.set (si k) (c.getD (si k) 0 + ((gap k : ℚ) : WithTop ℚ))) c).length
        = c.length := by
  intro ks
  induction ks with
  | nil => intro c; rfl
  | cons k ks ih =>
    intro c
    rw [List.foldl_cons, ih, List.length_set]

theorem foldl_setAdd_top (si : ℕ → ℕ) (gap : ℕ → ℚ) (j : ℕ) :
    ∀ (ks : List ℕ) (c : List (WithTop ℚ)), c.getD j 0 = ⊤ →
      (ks.foldl (fun c k =>
        c.set (si k) (c.getD (si k) 0 + ((gap k : ℚ) : WithTop ℚ))) c).getD j 0
        = ⊤ := by
  intro ks
  induction ks with
  | nil => intro c hc; exact hc
  | cons k ks ih =>
    intro c hc
    rw [List.foldl_cons]
    apply ih
    by_cases hsi : si k = j
    · have hj : j < c.length := getD_ne_default_lt c j 0 (by rw [hc]; simp)
      rw [hsi, getD_set_self _ _ _ _ hj, hc, top_add]
    · rw [getD_set_ne _ _ _ _ _ hsi, hc]

theorem crowdingInterior_length (objs : List (List ℚ)) (d n : ℕ)
    (sorted : List ℕ) (cds2 : List (WithTop ℚ)) :
    (crowdingInterior objs d n sorted cds2).length = cds2.length := by
  unfold crowdingInterior
  split
  · rfl
  · exact foldl_setAdd_length (fun k => sorted.getD (k + 1) 0) _ _ _

theorem crowdingInterior_top (objs : List (List ℚ)) (d n : ℕ)
    (sorted : List ℕ) (cds2 : List (WithTop ℚ)) (j : ℕ)
    (hc : cds2.getD j 0 = ⊤) :
    (crowdingInterior objs d n sorted cds2).getD j 0 = ⊤ := by
  unfold crowdingInterior
  split
  · exact hc
  · exact foldl_setAdd_top (fun k => sorted.getD (k + 1) 0) _ j _ _ hc

theorem crowdingStep_length (objs : List (List ℚ)) (n : ℕ)
    (cds : List (WithTop ℚ)) (d : ℕ) :
    (crowdingStep objs n cds d).length = cds.length := by
  unfold crowdingStep
  rw [crowdingInterior_length, List.length_set, List.length_set]

theorem crowdingStep_top (objs : List (List ℚ)) (n : ℕ)
    (cds : List (WithTop ℚ)) (d j : ℕ) (hc : cds.getD j 0 = ⊤) :
    (crowdingStep objs n cds d).getD j 0 = ⊤ := by
  have hj : j < cds.length := getD_ne_default_lt cds j 0 (by rw [hc]; simp)
  unfold crowdingStep
  apply crowdingInterior_top
  by_cases h2 : (argsort (colKey objs d) n).getLastD 0 = j
  · rw [h2, getD_set_self]
    simpa using hj
  · rw [getD_set_ne _ _ _ _ _ h2]
    by_cases h1 : (argsort (colKey objs d) n).headD 0 = j
    · rw [h1, getD_set_self _ _ _ _ (by simpa using hj)]
    · rw [getD_set_ne _ _ _ _ _ h1]; exact hc

theorem crowdingStep_boundary_top (objs : List (List ℚ)) (n : ℕ)
    (cds : List (WithTop ℚ)) (d : ℕ) (hn : cds.length = n)
    (i : ℕ) (hi : i = (argsort (colKey objs d) n).headD 0 ∨
                i = (argsort (colKey objs d) n).getLastD 0)
    (hin : i < n) :
    (crowdingStep objs n cds d).getD i 0 = ⊤ := by
  unfold crowdingStep
  apply crowdingInterior_top
  rcases hi with rfl | rfl
  · by_cases h2 : (argsort (colKey objs d) n).getLastD 0 =
        (argsort (colKey objs d) n).headD 0
    · rw [h2, getD_set_self]
      simpa [hn] using hin
    · rw [getD_set_ne _ _ _ _ _ h2, getD_set_self]
      simpa [hn] using hin
  · rw [getD_set_self]
    simpa [hn] using hin

theorem foldl_preserve {σ α : Type} (f : σ → α → σ) (P : σ → Prop)
    (hP : ∀ s a, P s → P (f s a)) :
    ∀ (l : List α) (s : σ), P s → P (l.foldl f s) := by
  intro l
  induction l with
  | nil => intro s hs; exact hs
  | cons a l ih => intro s hs; exact ih (f s a) (hP s a hs)

theorem foldl_establish {σ α : Type} (f : σ → α → σ) (P : σ → Prop)
    (Inv : σ → Prop) (hInv : ∀ s a, Inv s → Inv (f s a))
    (hP : ∀ s a, P s → P (f s a)) (d : α)
    (hEst : ∀ s, Inv s → P (f s d)) :
    ∀ (l : List α) (s : σ), Inv s → d ∈ l → P (l.foldl f s) := by
  intro l
  induction l with
  | nil => intro s _ hd; exact absurd hd (List.not_mem_nil d)
  | cons a l ih =>
    intro s hs hd
    rw [List.foldl_cons]
    rcases List.mem_cons.mp hd with rfl | hd
    · exact foldl_preserve f P hP l (f s d) (hEst s hs)
    · exact ih (f s a) (hInv s a hs) hd

/-- **C8.** For a front of 3 or more members, the member that is the unique
minimiser (or the unique maximiser) of any objective axis — the
lexicographically extreme member along that axis — is assigned infinite
crowding distance by `compute_crowding_distance`. -/
theorem crowding_distance_extreme_infinite {μ : Type} (numObjectives : ℕ)
    (front : List (List ℚ × μ)) (d i : ℕ)
    (h3 : 3 ≤ front.length) (hd : d < numObjectives) (hi : i < front.length)
    (hext :
      (∀ j, j < front.length → j ≠ i →
        colKey (front.map (·.1)) d i < colKey (front.map (·.1)) d j) ∨
      (∀ j, j < front.length → j ≠ i →
        colKey (front.map (·.1)) d j < colKey (front.map (·.1)) d i)) :
    (compute_crowding_distance numObjectives front).getD i 0 = ⊤ := by
  unfold compute_crowding_distance compute_crowding
  have hlen : (front.map (·.1)).length = front.length := List.length_map _ _
  rw [hlen]
  rw [if_neg (by omega)]
  apply foldl_establish (crowdingStep (front.map (·.1)) front.length)
    (fun s => s.getD i 0 = ⊤) (fun s => s.length = front.length)
  · intro s a hs
    rw [crowdingStep_length]; exact hs
  · intro s a hs
    exact crowdingStep_top _ _ _ _ _ hs
  · intro s hs
    apply crowdingStep_boundary_top _ _ _ _ hs
    · rcases hext with hmin | hmax
      · exact Or.inl (argsort_headD_unique_min _ front.length i hi
          (by intro j hj hne; exact hmin j hj hne)).symm
      · exact Or.inr (argsort_getLastD_unique_max _ front.length i hi
          (by intro j hj hne; exact hmax j hj hne)).symm
    · exact hi
  · exact List.length_replicate _ _
  · exact List.mem_range.mpr hd

/-- Witness for C8: on a concrete 3-member front, member `0` is the unique
minimiser along axis `0` and indeed receives infinite crowding distance. -/
theorem crowding_distance_extreme_infinite_witness :
    (3 ≤ frontC8.length ∧ 0 < 3 ∧ 0 < frontC8.length ∧
      (∀ j, j < frontC8.length → j ≠ 0 →
        colKey (frontC8.map (·.1)) 0 0 < colKey (frontC8.map (·.1)) 0 j)) ∧
    (compute_crowding_distance 3 frontC8).getD 0 0 = ⊤ :=
  ⟨⟨by decide, by decide, by decide, by decide⟩,
   crowding_distance_extreme_infinite 3 frontC8 0 0 (by decide) (by decide)
     (by decide) (Or.inl (by decide))⟩

/-- **C7, counterexample.** On a 3-member front with `n_select = 3`,
`select_sparse_solutions` pairs member `1` with `np.inf`, although member
`1`'s own crowding distance is the finite value `3`: the claim that each
member is returned "paired with its own crowding distance" is false. -/
theorem select_sparse_claim_counterexample :
    (select_sparse_solutions 3 frontC7 3).getD 1 (0, 0) = (1, ⊤) ∧
    (compute_crowding_distance 3 frontC7).getD 1 0 = ((3 : ℚ) : WithTop ℚ) ∧
    ((3 : ℚ) : WithTop ℚ) ≠ (⊤ : WithTop ℚ) := by
  refine ⟨by decide, ?_, by decide⟩
  norm_num [compute_crowding_distance, compute_crowding, crowdingStep,
    crowdingInterior, argsort, keyOrd, colKey, frontC7, List.range_succ]

/-- **C7, amended.** If the front has at most `n_select` members,
`select_sparse_solutions` returns all member indices, each paired with
infinite crowding distance (not with its own crowding distance).  Otherwise
it returns exactly `n_select` members, each paired with its own crowding
distance, and they are the members with the largest crowding distances:
every unselected member's distance is `≤` every selected member's distance,
and on ties the selected member precedes the unselected one in insertion
order. -/
theorem select_sparse_spec {μ : Type} (numObjectives : ℕ)
    (front : List (List ℚ × μ)) (n_select : ℕ) :
    (front.length ≤ n_select →
      select_sparse_solutions numObjectives front n_select =
        (List.range front.length).map fun i => (i, (⊤ : WithTop ℚ))) ∧
    (n_select < front.length →
      (select_sparse_solutions numObjectives front n_select).length = n_select ∧
      (∀ p ∈ select_sparse_solutions numObjectives front n_select,
        p.1 < front.length ∧
        p.2 = (compute_crowding_distance numObjectives front).getD p.1 0) ∧
      ((select_sparse_solutions numObjectives front n_select).map Prod.fst).Nodup ∧
      (∀ p ∈ select_sparse_solutions numObjectives front n_select,
        ∀ j, j < front.length →
          j ∉ (select_sparse_solutions numObjectives front n_select).map Prod.fst →
          (compute_crowding_distance numObjectives front).getD j 0 ≤
            (compute_crowding_distance numObjectives front).getD p.1 0 ∧
          ((compute_crowding_distance numObjectives front).getD j 0 =
            (compute_crowding_distance numObjectives front).getD p.1 0 →
            p.1 < j))) := by
  constructor
  · intro h
    unfold select_sparse_solutions
    rw [if_pos h]
  · intro h
    have hnle : ¬ front.length ≤ n_select := not_le.mpr h
    simp only [select_sparse_solutions, if_neg hnle]
    set cds := compute_crowding_distance numObjectives front with hcds
    set key : ℕ → (WithTop ℚ)ᵒᵈ := fun i => OrderDual.toDual (cds.getD i 0)
      with hkey
    set S := argsort key front.length with hS
    have hmapfst : ((S.take n_select).map
        (fun i => (i, cds.getD i 0))).map Prod.fst = S.take n_select := by
      rw [List.map_map]
      exact List.map_id'' (fun x => rfl) _
    refine ⟨?_, ?_, ?_, ?_⟩
    · rw [List.length_map, List.length_take, argsort_length]
      omega
    · intro p hp
      obtain ⟨i, hi, rfl⟩ := List.mem_map.mp hp
      have hiS : i ∈ S := List.mem_of_mem_take hi
      exact ⟨(argsort_mem key front.length i).mp hiS, rfl⟩
    · rw [hmapfst]
      exact (argsort_nodup key front.length).sublist (List.take_sublist _ _)
    · intro p hp j hj hjnot
      obtain ⟨i, hi, rfl⟩ := List.mem_map.mp hp
      rw [hmapfst] at hjnot
      have hjS : j ∈ S := (argsort_mem key front.length j).mpr hj
      have hjdrop : j ∈ S.drop n_select := by
        rcases List.mem_append.mp
          (by rw [List.take_append_drop]; exact hjS :
            j ∈ S.take n_select ++ S.drop n_select) with hjt | hjd
        · exact absurd hjt hjnot
        · exact hjd
      have hsorted : List.Sorted (keyOrd key) (S.take n_select ++ S.drop n_select) := by
        rw [List.take_append_drop]
        exact argsort_sorted key front.length
      have hrel : keyOrd key i j :=
        (List.pairwise_append.mp hsorted).2.2 i hi j hjdrop
      have hne : i ≠ j := fun heq => hjnot (heq ▸ hi)
      rcases hrel with hlt | ⟨heq, hle⟩
      · rw [hkey] at hlt
        simp only [OrderDual.toDual_lt_toDual] at hlt
        constructor
        · exact le_of_lt hlt
        · intro habs
          rw [habs] at hlt
          exact absurd hlt (lt_irrefl _)
      · rw [hkey] at heq
        have heq' : cds.getD i 0 = cds.getD j 0 := OrderDual.toDual_inj.mp heq
        exact ⟨le_of_eq heq'.symm, fun _ => lt_of_le_of_ne hle hne⟩

/-- Witness for C7: the amended theorem applied at a concrete 3-member front
for both branches (`n_select = 5` covers the "return everything" branch,
`n_select = 1` the selection branch). -/
theorem select_sparse_spec_witness :
    (frontC7.length ≤ 5 ∧
      select_sparse_solutions 3 frontC7 5 =
        (List.range frontC7.length).map fun i => (i, (⊤ : WithTop ℚ))) ∧
    (1 < frontC7.length ∧
      (select_sparse_solutions 3 frontC7 1).length = 1) :=
  ⟨⟨by decide, (select_sparse_spec 3 frontC7 5).1 (by decide)⟩,
   ⟨by decide, ((select_sparse_spec 3 frontC7 1).2 (by decide)).1⟩⟩

/-- Witness for C3: the transitivity part applied at the concrete vectors
`[0,0]`, `[1,1]`, `[2,2]` (hypotheses discharged by computation). -/
theorem dominates_strict_partial_order_witness :
    (([0, 0] : List ℚ).length = ([1, 1] : List ℚ).length ∧
     ([1, 1] : List ℚ).length = ([2, 2] : List ℚ).length ∧
     dominates [0, 0] [1, 1] = true ∧ dominates [1, 1] [2, 2] = true) ∧
    dominates ([0, 0] : List ℚ) [2, 2] = true :=
  ⟨⟨rfl, rfl, by decide, by decide⟩,
   dominates_strict_partial_order.2.2 [0, 0] [1, 1] [2, 2] rfl rfl
     (by decide) (by decide)⟩

end Pareto

namespace ECMR

/-- **C2, counterexample.** A trace consisting of a single `allocate_vm` of a
2-CPU VM releases nothing (so it satisfies the claim's only hypothesis), yet
drives `used_cpus` above `total_cpus` on a 1-CPU pool: `allocate_vm` performs
no capacity check of its own. -/
theorem capacity_claim_counterexample :
    releasesLegal [] [PoolOp.alloc ⟨1, 2, 512⟩] = true ∧
    ¬((applyOps dcSmall [PoolOp.alloc ⟨1, 2, 512⟩]).used_cpus ≤
      (applyOps dcSmall [PoolOp.alloc ⟨1, 2, 512⟩]).total_cpus) := by
  constructor
  · rfl
  · decide

/-- **C2, amended.** For any sequence of interleaved allocate/release calls in
which every allocate is guarded by a passing `can_host_vm` check and no
release concerns a workload that is not currently outstanding, both
`used_cpus ≤ total_cpus` and `used_ram_mb ≤ total_ram_mb` hold after every
step, provided they hold initially. -/
theorem capacity_invariant :
    ∀ (ops : List PoolOp) (dc : Datacenter) (outstanding : List Vm),
      legalOps dc outstanding ops = true →
      dc.used_cpus ≤ dc.total_cpus → dc.used_ram_mb ≤ dc.total_ram_mb →
      ∀ k, (applyOps dc (ops.take k)).used_cpus ≤
             (applyOps dc (ops.take k)).total_cpus ∧
           (applyOps dc (ops.take k)).used_ram_mb ≤
             (applyOps dc (ops.take k)).total_ram_mb := by
  intro ops
  induction ops with
  | nil =>
    intro dc outstanding _ hcpu hram k
    simp only [List.take_nil]
    exact ⟨hcpu, hram⟩
  | cons op rest ih =>
    intro dc outstanding hlegal hcpu hram k
    cases k with
    | zero => exact ⟨hcpu, hram⟩
    | succ k =>
      rw [List.take_succ_cons]
      have happly : applyOps dc (op :: rest.take k) =
          applyOps (applyOp dc op) (rest.take k) := rfl
      rw [happly]
      cases op with
      | alloc vm =>
        simp only [legalOps, Bool.and_eq_true] at hlegal
        have hhost := hlegal.1
        simp only [Datacenter.can_host_vm, Bool.and_eq_true,
          decide_eq_true_eq, Datacenter.available_cpus,
          Datacenter.available_ram_mb] at hhost
        apply ih (dc.allocate_vm vm) (vm :: outstanding) hlegal.2
        · simp only [applyOp, Datacenter.allocate_vm, Datacenter.total_cpus]
          simp only [Datacenter.total_cpus] at hhost
          omega
        · simp only [applyOp, Datacenter.allocate_vm, Datacenter.total_ram_mb]
          simp only [Datacenter.total_ram_mb] at hhost
          omega
      | rel vm =>
        simp only [legalOps, Bool.and_eq_true] at hlegal
        apply ih (dc.release_vm vm) (outstanding.erase vm) hlegal.2
        · simp only [applyOp, Datacenter.release_vm, Datacenter.total_cpus]
          simp only [Datacenter.total_cpus] at hcpu
          omega
        · simp only [applyOp, Datacenter.release_vm, Datacenter.total_ram_mb]
          simp only [Datacenter.total_ram_mb] at hram
          omega

/-- Witness for C2 (amended): a guarded allocate followed by its release on
the 1-CPU pool, checked at every step. -/
theorem capacity_invariant_witness :
    (legalOps dcSmall [] [PoolOp.alloc ⟨1, 1, 512⟩, PoolOp.rel ⟨1, 1, 512⟩] = true ∧
     dcSmall.used_cpus ≤ dcSmall.total_cpus ∧
     dcSmall.used_ram_mb ≤ dcSmall.total_ram_mb) ∧
    ((applyOps dcSmall ([PoolOp.alloc ⟨1, 1, 512⟩, PoolOp.rel ⟨1, 1, 512⟩].take 2)).used_cpus ≤
      (applyOps dcSmall ([PoolOp.alloc ⟨1, 1, 512⟩, PoolOp.rel ⟨1, 1, 512⟩].take 2)).total_cpus) :=
  ⟨⟨by decide, by decide, by decide⟩,
   (capacity_invariant [PoolOp.alloc ⟨1, 1, 512⟩, PoolOp.rel ⟨1, 1, 512⟩]
     dcSmall [] (by decide) (by decide) (by decide) 2).1⟩

/-- **C9.** `release_vm` on a fresh pool (nothing allocated) of a 2-CPU VM:
the code silently subtracts, leaving `used_cpus = -2` — negative, not clamped
to zero, and with no assertion or exception raised (the function is total).
This demonstrates the silent corruption that the claim (and §7(c) of the
spec) says must instead be a hard failure. -/
theorem release_vm_silently_corrupts :
    (dcSmall.release_vm ⟨7, 2, 2048⟩).used_cpus = -2 ∧
    (dcSmall.release_vm ⟨7, 2, 2048⟩).used_cpus < 0 ∧
    (dcSmall.release_vm ⟨7, 2, 2048⟩).used_ram_mb = -2048 := by
  refine ⟨by decide, by decide, by decide⟩

theorem firstMinCand_eq_none :
    ∀ l : List Candidate, firstMinCand l = none ↔ l = [] := by
  intro l
  cases l with
  | nil => simp [firstMinCand]
  | cons a l =>
    simp only [firstMinCand]
    constructor
    · intro h
      cases hm : firstMinCand l with
      | none => rw [hm] at h; exact absurd h (by simp)
      | some b =>
        rw [hm] at h
        by_cases hab : a.score ≤ b.score <;> simp [hab] at h
    · intro h; exact absurd h (by simp)

theorem head_insertionSort_score (l : List Candidate) :
    (List.insertionSort (fun a b : Candidate => a.score ≤ b.score) l).head? =
      firstMinCand l := by
  induction l with
  | nil => rfl
  | cons a l ih =>
    show (List.orderedInsert _ a
      (List.insertionSort (fun a b : Candidate => a.score ≤ b.score) l)).head? =
      firstMinCand (a :: l)
    cases hs : List.insertionSort (fun a b : Candidate => a.score ≤ b.score) l with
    | nil =>
      rw [hs] at ih
      have hl : firstMinCand l = none := ih.symm ▸ rfl
      simp only [firstMinCand, hl]
      rfl
    | cons x xs =>
      rw [hs] at ih
      have hl : firstMinCand l = some x := by rw [← ih]; rfl
      simp only [firstMinCand, hl]
      by_cases hax : a.score ≤ x.score
      · simp only [List.orderedInsert, if_pos hax, List.head?_cons, hax, if_true]
      · simp only [List.orderedInsert, if_neg hax, List.head?_cons, hax, if_false]

theorem firstMinCand_spec :
    ∀ (l : List Candidate) (b : Candidate), firstMinCand l = some b →
      ∃ l1 l2, l = l1 ++ b :: l2 ∧ (∀ c ∈ l1, b.score < c.score) ∧
        ∀ c ∈ l, b.score ≤ c.score := by
  intro l
  induction l with
  | nil => intro b h; exact absurd h (by simp [firstMinCand])
  | cons a l ih =>
    intro b h
    cases hm : firstMinCand l with
    | none =>
      have hl : l = [] := (firstMinCand_eq_none l).mp hm
      subst hl
      simp only [firstMinCand, Option.some.injEq] at h
      subst h
      exact ⟨[], [], rfl, by simp, by simp⟩
    | some m =>
      simp only [firstMinCand, hm] at h
      by_cases ham : a.score ≤ m.score
      · rw [if_pos ham] at h
        obtain rfl : a = b := Option.some.injEq _ _ ▸ h
        refine ⟨[], l, rfl, by simp, ?_⟩
        intro c hc
        rcases List.mem_cons.mp hc with rfl | hc
        · exact le_refl _
        · obtain ⟨_, _, _, _, hmin⟩ := ih m hm
          exact le_trans ham (hmin c hc)
      · rw [if_neg ham] at h
        obtain rfl : m = b := Option.some.injEq _ _ ▸ h
        obtain ⟨l1, l2, heq, hpre, hmin⟩ := ih m hm
        refine ⟨a :: l1, l2, by rw [heq]; rfl, ?_, ?_⟩
        · intro c hc
          rcases List.mem_cons.mp hc with rfl | hc
          · exact lt_of_not_le ham
          · exact hpre c hc
        · intro c hc
          rcases List.mem_cons.mp hc with rfl | hc
          · exact le_of_lt (lt_of_not_le ham)
          · exact hmin c hc

theorem schedule_min_score_aux (hav : ℚ → ℚ → ℚ) (sch : ECMRScheduler)
    (vm : Vm) (t : ℕ) (hne : (baseline_passes hav sch vm).1 ≠ []) :
    ∃ best l1 l2,
      (schedule_vm hav sch vm t).1 = (some best.datacenter.id, true) ∧
      (baseline_passes hav sch vm).1 = l1 ++ best :: l2 ∧
      (∀ c ∈ l1, best.score < c.score) ∧
      (∀ c ∈ (baseline_passes hav sch vm).1, best.score ≤ c.score) := by
  obtain ⟨best, hbest⟩ : ∃ b, firstMinCand (baseline_passes hav sch vm).1 = some b := by
    cases hm : firstMinCand (baseline_passes hav sch vm).1 with
    | none => exact absurd ((firstMinCand_eq_none _).mp hm) hne
    | some b => exact ⟨b, rfl⟩
  obtain ⟨l1, l2, heq, hpre, hmin⟩ := firstMinCand_spec _ best hbest
  refine ⟨best, l1, l2, ?_, heq, hpre, hmin⟩
  show ((match (List.insertionSort (fun a b : Candidate => a.score ≤ b.score)
      (baseline_passes hav sch vm).1).head? with
    | some best => ((some best.datacenter.id, true), _)
    | none => ((none, false), _) : (Option ℕ × Bool) × ECMRScheduler)).1 = _
  rw [head_insertionSort_score, hbest]

/-- **C5, amended.** When the constraint passes leave at least one candidate,
`schedule_vm` reports success on the candidate with the minimal weighted
score; on ties it deterministically selects the candidate evaluated first
(classification/iteration order of the pools), which is not in general the
one with the lowest pool identifier. -/
theorem schedule_selects_min_score (hav : ℚ → ℚ → ℚ) (sch : ECMRScheduler)
    (vm : Vm) (t : ℕ) (hne : (baseline_passes hav sch vm).1 ≠ []) :
    ∃ best l1 l2,
      (schedule_vm hav sch vm t).1 = (some best.datacenter.id, true) ∧
      (baseline_passes hav sch vm).1 = l1 ++ best :: l2 ∧
      (∀ c ∈ l1, best.score < c.score) ∧
      (∀ c ∈ (baseline_passes hav sch vm).1, best.score ≤ c.score) :=
  schedule_min_score_aux hav sch vm t hne

/-- **C5, counterexample.** Two identical green pools with ids 2 and 1, both
passing every check with the same weighted score `3/10`: the scheduler
selects pool 2 (the first-evaluated candidate, by stable sort), not the
pool with the lowest identifier (1). -/
theorem schedule_tie_break_counterexample :
    ((baseline_passes hav0 schC5 vm0).1.map fun c => (c.datacenter.id, c.score)) =
      [(2, 3/10), (1, 3/10)] ∧
    (schedule_vm hav0 schC5 vm0 0).1 = (some 2, true) ∧
    (1 : ℕ) < 2 := by
  refine ⟨?_, ?_, by decide⟩
  · norm_num [baseline_passes, evalGreenPass, evalBrownPass, greenStep, brownStep,
      classify_datacenters,
      calculate_weighted_score, calculate_distance, check_res_availability,
      estimate_vm_energy_kwh, Datacenter.can_host_vm, Datacenter.available_cpus,
      Datacenter.available_ram_mb, Datacenter.total_cpus, Datacenter.total_ram_mb,
      Datacenter.cpu_utilization, schC5, dcZ, dcA, hav0, vm0]
  · norm_num [schedule_vm, baseline_passes, evalGreenPass, evalBrownPass,
      greenStep, brownStep,
      classify_datacenters, calculate_weighted_score, calculate_distance,
      check_res_availability, estimate_vm_energy_kwh, Datacenter.can_host_vm,
      Datacenter.available_cpus, Datacenter.available_ram_mb,
      Datacenter.total_cpus, Datacenter.total_ram_mb,
      Datacenter.cpu_utilization, schC5, dcZ, dcA, hav0, vm0]

/-- Witness for C5 (amended): on `schC5` the candidate list is nonempty and
the theorem produces the selected minimal-score candidate. -/
theorem schedule_selects_min_score_witness :
    (baseline_passes hav0 schC5 vm0).1 ≠ [] ∧
    ∃ best l1 l2,
      (schedule_vm hav0 schC5 vm0 0).1 = (some best.datacenter.id, true) ∧
      (baseline_passes hav0 schC5 vm0).1 = l1 ++ best :: l2 ∧
      (∀ c ∈ l1, best.score < c.score) ∧
      (∀ c ∈ (baseline_passes hav0 schC5 vm0).1, best.score ≤ c.score) := by
  have hne : (baseline_passes hav0 schC5 vm0).1 ≠ [] := by
    intro hempty
    have hmap : ((baseline_passes hav0 schC5 vm0).1.map
        fun c => (c.datacenter.id, c.score)) = [(2, 3/10), (1, 3/10)] := by
      norm_num [baseline_passes, evalGreenPass, evalBrownPass, greenStep,
        brownStep, classify_datacenters, calculate_weighted_score, calculate_distance, check_res_availability,
        estimate_vm_energy_kwh, Datacenter.can_host_vm, Datacenter.available_cpus,
        Datacenter.available_ram_mb, Datacenter.total_cpus, Datacenter.total_ram_mb,
        Datacenter.cpu_utilization, schC5, dcZ, dcA, hav0, vm0]
    rw [hempty] at hmap
    simp at hmap
  exact ⟨hne, schedule_selects_min_score hav0 schC5 vm0 0 hne⟩

/-- **C10.** For every request and every outcome, `schedule_vm` leaves each
pool's identity, geography, capacity configuration
(`num_servers`, `cpu_per_server`, `ram_per_server_mb`), power model and
sustainability state (`renewable_generation_mw`, `carbon_intensity_gco2_kwh`,
`renewable_pct`, `datacenter_type`) unchanged; a pool whose id is not the
returned one is entirely unchanged, and the returned pool is changed exactly
by `allocate_vm` (which only bumps `used_cpus`, `used_ram_mb`,
`active_vms`). -/
theorem schedule_vm_frame (hav : ℚ → ℚ → ℚ) (sch : ECMRScheduler) (vm : Vm)
    (t : ℕ) (i : ℕ) (dc : Datacenter)
    (hget : sch.datacenters.get? i = some dc) :
    ∃ dc', (schedule_vm hav sch vm t).2.datacenters.get? i = some dc' ∧
      dc'.id = dc.id ∧ dc'.name = dc.name ∧ dc'.country = dc.country ∧
      dc'.latitude = dc.latitude ∧ dc'.longitude = dc.longitude ∧
      dc'.num_servers = dc.num_servers ∧ dc'.cpu_per_server = dc.cpu_per_server ∧
      dc'.ram_per_server_mb = dc.ram_per_server_mb ∧
      dc'.power_idle_w = dc.power_idle_w ∧ dc'.power_max_w = dc.power_max_w ∧
      dc'.pue = dc.pue ∧
      dc'.renewable_generation_mw = dc.renewable_generation_mw ∧
      dc'.carbon_intensity_gco2_kwh = dc.carbon_intensity_gco2_kwh ∧
      dc'.renewable_pct = dc.renewable_pct ∧
      dc'.datacenter_type = dc.datacenter_type ∧
      ((schedule_vm hav sch vm t).1.1 = some dc.id → dc' = dc.allocate_vm vm) ∧
      ((schedule_vm hav sch vm t).1.1 ≠ some dc.id → dc' = dc) := by
  simp only [schedule_vm]
  cases hm : (List.insertionSort (fun a b : Candidate => a.score ≤ b.score)
      (baseline_passes hav sch vm).1).head? with
  | none =>
    refine ⟨dc, hget, rfl, rfl, rfl, rfl, rfl, rfl, rfl, rfl, rfl, rfl, rfl,
      rfl, rfl, rfl, rfl, ?_, fun _ => rfl⟩
    intro h
    exact absurd h (by simp)
  | some best =>
    simp only [List.get?_map, hget, Option.map_some]
    by_cases hid : dc.id = best.datacenter.id
    · refine ⟨dc.allocate_vm vm,
        by simp only [Option.map_some']; rw [if_pos hid], rfl, rfl, rfl, rfl, rfl,
        rfl, rfl, rfl, rfl, rfl, rfl, rfl, rfl, rfl, rfl, fun _ => rfl, ?_⟩
      intro h
      exact absurd (by rw [hid]) h
    · refine ⟨dc, by simp only [Option.map_some']; rw [if_neg hid], rfl, rfl,
        rfl, rfl, rfl, rfl, rfl, rfl,
        rfl, rfl, rfl, rfl, rfl, rfl, rfl, ?_, fun _ => rfl⟩
      intro h
      exact absurd (Option.some.injEq _ _ ▸ h).symm hid

/-- Witness for C10: the frame condition instantiated on the concrete
scheduler `schC5` at index 0. -/
theorem schedule_vm_frame_witness :
    schC5.datacenters.get? 0 = some dcZ ∧
    ∃ dc', (schedule_vm hav0 schC5 vm0 0).2.datacenters.get? 0 = some dc' ∧
      dc'.id = dcZ.id ∧ dc'.name = dcZ.name ∧ dc'.country = dcZ.country ∧
      dc'.latitude = dcZ.latitude ∧ dc'.longitude = dcZ.longitude ∧
      dc'.num_servers = dcZ.num_servers ∧ dc'.cpu_per_server = dcZ.cpu_per_server ∧
      dc'.ram_per_server_mb = dcZ.ram_per_server_mb ∧
      dc'.power_idle_w = dcZ.power_idle_w ∧ dc'.power_max_w = dcZ.power_max_w ∧
      dc'.pue = dcZ.pue ∧
      dc'.renewable_generation_mw = dcZ.renewable_generation_mw ∧
      dc'.carbon_intensity_gco2_kwh = dcZ.carbon_intensity_gco2_kwh ∧
      dc'.renewable_pct = dcZ.renewable_pct ∧
      dc'.datacenter_type = dcZ.datacenter_type ∧
      ((schedule_vm hav0 schC5 vm0 0).1.1 = some dcZ.id → dc' = dcZ.allocate_vm vm0) ∧
      ((schedule_vm hav0 schC5 vm0 0).1.1 ≠ some dcZ.id → dc' = dcZ) :=
  ⟨rfl, schedule_vm_frame hav0 schC5 vm0 0 0 dcZ rfl⟩

theorem evalDatacenter_no_capacity (hav : ℚ → ℚ → ℚ) (sch : CompleteScheduler)
    (vm : Vm) (dc : Datacenter) (h : dc.can_host_vm vm = false) :
    (evalDatacenter hav sch vm dc).weighted_score = none ∧
    (evalDatacenter hav sch vm dc).can_host = false ∧
    RejReason.insufficient_capacity ∈ (evalDatacenter hav sch vm dc).rejection_reason := by
  refine ⟨?_, ?_, ?_⟩
  · simp [evalDatacenter, h]
  · simp [evalDatacenter, h]
  · simp only [evalDatacenter, h]
    split <;> split <;> split <;> simp

theorem evalDatacenter_id (hav : ℚ → ℚ → ℚ) (sch : CompleteScheduler)
    (vm : Vm) (dc : Datacenter) :
    (evalDatacenter hav sch vm dc).datacenter_id = dc.id := rfl

theorem mem_ordered_iff (hav : ℚ → ℚ → ℚ) (sch : CompleteScheduler)
    (dc : Datacenter) :
    dc ∈ sort_dg_by_distance hav (classify_datacenters_complete sch).1 ++
        (classify_datacenters_complete sch).2 ↔
      dc ∈ sch.datacenters := by
  rw [List.mem_append]
  unfold sort_dg_by_distance
  rw [(List.perm_insertionSort _ _).mem_iff]
  unfold classify_datacenters_complete
  constructor
  · rintro (h | h) <;> exact List.mem_of_mem_filter h
  · intro h
    by_cases hg : dc.datacenter_type = DCType.DG
    · exact Or.inl (List.mem_filter.mpr ⟨h, by simp [hg]⟩)
    · exact Or.inr (List.mem_filter.mpr ⟨h, by simp [hg]⟩)

/-- **C6.** For a request no pool can accept (every pool fails the capacity
check), the complete scheduler returns `(none, false, decision)`, increments
the failure counter by exactly one, leaves every pool unchanged, appends
exactly that decision record, and the record's evaluations cover every pool
with `can_host = false` and an `insufficient_capacity` rejection reason. -/
theorem schedule_total_failure (hav : ℚ → ℚ → ℚ) (sch : CompleteScheduler)
    (vm : Vm) (t : ℕ)
    (hcap : ∀ dc ∈ sch.datacenters, dc.can_host_vm vm = false) :
    (schedule_vm_complete hav sch vm t).1.1 = none ∧
    (schedule_vm_complete hav sch vm t).1.2.1 = false ∧
    (schedule_vm_complete hav sch vm t).2.metrics.failed_vms =
      sch.metrics.failed_vms + 1 ∧
    (schedule_vm_complete hav sch vm t).2.datacenters = sch.datacenters ∧
    (∀ e ∈ (schedule_vm_complete hav sch vm t).1.2.2.all_dc_evaluations,
      e.can_host = false ∧
      RejReason.insufficient_capacity ∈ e.rejection_reason) ∧
    (∀ dc ∈ sch.datacenters,
      ∃ e ∈ (schedule_vm_complete hav sch vm t).1.2.2.all_dc_evaluations,
        e.datacenter_id = dc.id) ∧
    (schedule_vm_complete hav sch vm t).2.metrics.placement_decisions =
      sch.metrics.placement_decisions ++ [(schedule_vm_complete hav sch vm t).1.2.2] := by
  have hcand : (((sort_dg_by_distance hav (classify_datacenters_complete sch).1 ++
        (classify_datacenters_complete sch).2).map
          (evalDatacenter hav sch vm)).filter
            fun e : CEvaluation => e.weighted_score.isSome) = [] := by
    rw [List.filter_eq_nil]
    intro e he
    obtain ⟨dc, hdc, rfl⟩ := List.mem_map.mp he
    have hdc' : dc ∈ sch.datacenters := (mem_ordered_iff hav sch dc).mp hdc
    rw [(evalDatacenter_no_capacity hav sch vm dc (hcap dc hdc')).1]
    simp
  have hdecide : schedule_vm_complete hav sch vm t =
      (let evals := ((sort_dg_by_distance hav (classify_datacenters_complete sch).1 ++
          (classify_datacenters_complete sch).2).map (evalDatacenter hav sch vm))
       let decision : CDecision :=
        { vm_id := vm.vm_id, selected_datacenter := none, datacenter_type := none,
          all_dc_evaluations := evals, timestamp := t, success := false }
       ((none, false, decision),
        { sch with
          metrics := {
            total_vms := sch.metrics.total_vms + 1
            placed_vms := sch.metrics.placed_vms
            failed_vms := sch.metrics.failed_vms + 1
            total_response_time_ms := sch.metrics.total_response_time_ms
            latency_rejections := sch.metrics.latency_rejections +
              (evals.filter fun e : CEvaluation => !e.latency_ok).length
            res_rejections := sch.metrics.res_rejections +
              (evals.filter fun e : CEvaluation => !e.res_ok).length
            placement_decisions := sch.metrics.placement_decisions ++ [decision] } })) := by
    simp only [schedule_vm_complete, hcand]
    rfl
  rw [hdecide]
  refine ⟨rfl, rfl, rfl, rfl, ?_, ?_, rfl⟩
  · intro e he
    simp only [List.mem_map] at he
    obtain ⟨dc, hdc, rfl⟩ := he
    have hdc' : dc ∈ sch.datacenters := (mem_ordered_iff hav sch dc).mp hdc
    exact ⟨(evalDatacenter_no_capacity hav sch vm dc (hcap dc hdc')).2.1,
      (evalDatacenter_no_capacity hav sch vm dc (hcap dc hdc')).2.2⟩
  · intro dc hdc
    refine ⟨evalDatacenter hav sch vm dc, ?_, rfl⟩
    exact List.mem_map.mpr ⟨dc, (mem_ordered_iff hav sch dc).mpr hdc, rfl⟩

theorem greenStep_mem (hav : ℚ → ℚ → ℚ) (sch : ECMRScheduler) (vm : Vm)
    (acc : List Candidate × ℕ × ℕ) (dc : Datacenter) :
    ∀ c ∈ (greenStep hav sch vm acc dc).1,
      c ∈ acc.1 ∨ (c.ctype = DCType.DG ∧ c.datacenter = dc) := by
  intro c hc
  unfold greenStep at hc
  split at hc
  · exact Or.inl hc
  · split at hc
    · exact Or.inl hc
    · split at hc
      · exact Or.inl hc
      · rcases List.mem_append.mp hc with h | h
        · exact Or.inl h
        · simp only [List.mem_singleton] at h
          subst h
          exact Or.inr ⟨rfl, rfl⟩

theorem greenPass_cands_aux (hav : ℚ → ℚ → ℚ) (sch : ECMRScheduler) (vm : Vm) :
    ∀ (dcs : List Datacenter) (acc : List Candidate × ℕ × ℕ),
      (∀ c ∈ acc.1, c.ctype = DCType.DG ∧ c.datacenter.datacenter_type = DCType.DG) →
      (∀ dc ∈ dcs, dc.datacenter_type = DCType.DG) →
      ∀ c ∈ (dcs.foldl (greenStep hav sch vm) acc).1,
        c.ctype = DCType.DG ∧ c.datacenter.datacenter_type = DCType.DG := by
  intro dcs
  induction dcs with
  | nil => intro acc hacc _ c hc; exact hacc c hc
  | cons dc dcs ih =>
    intro acc hacc hdcs c hc
    rw [List.foldl_cons] at hc
    refine ih (greenStep hav sch vm acc dc) ?_ (fun d hd => hdcs d (List.mem_cons_of_mem dc hd)) c hc
    intro c' hc'
    rcases greenStep_mem hav sch vm acc dc c' hc' with h | ⟨hct, hdc⟩
    · exact hacc c' h
    · exact ⟨hct, hdc ▸ hdcs dc (List.mem_cons_self dc dcs)⟩

theorem greenPass_cands (hav : ℚ → ℚ → ℚ) (sch : ECMRScheduler) (vm : Vm) :
    ∀ c ∈ (evalGreenPass hav sch vm (classify_datacenters sch).1).1,
      c.ctype = DCType.DG ∧ c.datacenter.datacenter_type = DCType.DG := by
  apply greenPass_cands_aux
  · intro c hc; exact absurd hc (List.not_mem_nil c)
  · intro dc hdc
    unfold classify_datacenters at hdc
    have := (List.mem_filter.mp hdc).2
    simpa using this

theorem baseline_passes_of_green_nonempty (hav : ℚ → ℚ → ℚ)
    (sch : ECMRScheduler) (vm : Vm)
    (hne : (evalGreenPass hav sch vm (classify_datacenters sch).1).1 ≠ []) :
    (baseline_passes hav sch vm).1 =
      (evalGreenPass hav sch vm (classify_datacenters sch).1).1 := by
  unfold baseline_passes
  have : (evalGreenPass hav sch vm (classify_datacenters sch).1).1.isEmpty = false := by
    cases h : (evalGreenPass hav sch vm (classify_datacenters sch).1).1 with
    | nil => exact absurd h hne
    | cons a l => rfl
  simp only [this, Bool.false_eq_true, if_false]

/-- **C4, counterexample.** In the complete scheduler
(`ECMRCompleteScheduler.schedule_vm`), the green pool `dcG` passes the
capacity, latency and renewable checks, yet the scheduler selects the brown
pool `dcB` (id 2), because green and brown pools are evaluated together in a
single pass and the brown pool scores lower. -/
theorem green_first_claim_counterexample :
    ((schedule_vm_complete havLat schC4 vm0 0).1.2.2.all_dc_evaluations.map
      fun e => (e.datacenter_id, e.datacenter_type, e.can_host, e.latency_ok,
                e.res_ok)) =
      [(1, DCType.DG, true, true, true), (2, DCType.DB, true, true, true)] ∧
    (schedule_vm_complete havLat schC4 vm0 0).1.1 = some 2 ∧
    dcG.datacenter_type = DCType.DG ∧ dcB.datacenter_type = DCType.DB := by
  refine ⟨?_, ?_, rfl, rfl⟩ <;>
    norm_num [schedule_vm_complete, classify_datacenters_complete,
      sort_dg_by_distance, evalDatacenter, markSelected,
      calculate_weighted_score_complete, calculate_distance,
      check_res_availability, estimate_vm_energy_kwh, Datacenter.can_host_vm,
      Datacenter.available_cpus, Datacenter.available_ram_mb,
      Datacenter.total_cpus, Datacenter.total_ram_mb,
      Datacenter.cpu_utilization, pyRound, roundHalfEven, List.filter,
      Option.isSome, Option.getD, schC4, dcG, dcB, havLat, vm0]

/-- **C4, amended.** In the two-pass baseline scheduler
(`ECMRScheduler.schedule_vm`), brown pools are evaluated only when the green
pass yields zero candidates: whenever at least one green pool survives the
capacity, latency and renewable checks, the candidate set is exactly the
green pass's and the selected pool is green.  The single-pass complete
scheduler (`ECMRCompleteScheduler.schedule_vm`) does not obey the claim: it
evaluates brown pools unconditionally and can select a brown pool even when
a green pool passes every check (second conjunct, witnessed at `schC4`). -/
theorem green_first_selection :
    (∀ (hav : ℚ → ℚ → ℚ) (sch : ECMRScheduler) (vm : Vm) (t : ℕ),
      (evalGreenPass hav sch vm (classify_datacenters sch).1).1 ≠ [] →
      (baseline_passes hav sch vm).1 =
        (evalGreenPass hav sch vm (classify_datacenters sch).1).1 ∧
      ∃ best, (schedule_vm hav sch vm t).1 = (some best.datacenter.id, true) ∧
        best ∈ (evalGreenPass hav sch vm (classify_datacenters sch).1).1 ∧
        best.ctype = DCType.DG ∧
        best.datacenter.datacenter_type = DCType.DG) ∧
    ((schedule_vm_complete havLat schC4 vm0 0).1.1 = some 2 ∧
     dcB.datacenter_type = DCType.DB ∧
     ∃ e ∈ (schedule_vm_complete havLat schC4 vm0 0).1.2.2.all_dc_evaluations,
       e.datacenter_id = dcG.id ∧ e.datacenter_type = DCType.DG ∧
       e.can_host = true ∧ e.latency_ok = true ∧ e.res_ok = true) := by
  constructor
  · intro hav sch vm t hne
    have hpass := baseline_passes_of_green_nonempty hav sch vm hne
    refine ⟨hpass, ?_⟩
    have hne' : (baseline_passes hav sch vm).1 ≠ [] := by rw [hpass]; exact hne
    obtain ⟨best, l1, l2, hres, heq, _, _⟩ :=
      schedule_min_score_aux hav sch vm t hne'
    have hmem : best ∈ (evalGreenPass hav sch vm (classify_datacenters sch).1).1 := by
      rw [← hpass, heq]
      exact List.mem_append.mpr (Or.inr (List.mem_cons_self best l2))
    obtain ⟨hct, hdt⟩ := greenPass_cands hav sch vm best hmem
    exact ⟨best, hres, hmem, hct, hdt⟩
  · refine ⟨?_, rfl, ?_⟩
    · norm_num [schedule_vm_complete, classify_datacenters_complete,
        sort_dg_by_distance, evalDatacenter, markSelected,
        calculate_weighted_score_complete, calculate_distance,
        check_res_availability, estimate_vm_energy_kwh, Datacenter.can_host_vm,
        Datacenter.available_cpus, Datacenter.available_ram_mb,
        Datacenter.total_cpus, Datacenter.total_ram_mb,
        Datacenter.cpu_utilization, pyRound, roundHalfEven, List.filter,
        Option.isSome, Option.getD, schC4, dcG, dcB, havLat, vm0]
    · refine ⟨evalDatacenter havLat schC4 vm0 dcG, ?_, rfl, rfl, ?_, ?_, ?_⟩ <;>
        norm_num [schedule_vm_complete, classify_datacenters_complete,
          sort_dg_by_distance, evalDatacenter, markSelected,
          calculate_weighted_score_complete, calculate_distance,
          check_res_availability, estimate_vm_energy_kwh, Datacenter.can_host_vm,
          Datacenter.available_cpus, Datacenter.available_ram_mb,
          Datacenter.total_cpus, Datacenter.total_ram_mb,
          Datacenter.cpu_utilization, pyRound, roundHalfEven, List.filter,
          Option.isSome, Option.getD, schC4, dcG, dcB, havLat, vm0]

/-- Witness for C4 (amended): the baseline part applied to the concrete
scheduler `schC5`, whose green pass yields two candidates. -/
theorem green_first_selection_witness :
    (evalGreenPass hav0 schC5 vm0 (classify_datacenters schC5).1).1 ≠ [] ∧
    ((baseline_passes hav0 schC5 vm0).1 =
      (evalGreenPass hav0 schC5 vm0 (classify_datacenters schC5).1).1 ∧
     ∃ best, (schedule_vm hav0 schC5 vm0 0).1 = (some best.datacenter.id, true) ∧
       best ∈ (evalGreenPass hav0 schC5 vm0 (classify_datacenters schC5).1).1 ∧
       best.ctype = DCType.DG ∧
       best.datacenter.datacenter_type = DCType.DG) := by
  have hne : (evalGreenPass hav0 schC5 vm0 (classify_datacenters schC5).1).1 ≠ [] := by
    intro hempty
    have hmap : ((evalGreenPass hav0 schC5 vm0 (classify_datacenters schC5).1).1.map
        fun c => c.datacenter.id) = [2, 1] := by
      norm_num [evalGreenPass, greenStep, classify_datacenters,
        calculate_weighted_score, calculate_distance, check_res_availability,
        estimate_vm_energy_kwh, Datacenter.can_host_vm, Datacenter.available_cpus,
        Datacenter.available_ram_mb, Datacenter.total_cpus, Datacenter.total_ram_mb,
        Datacenter.cpu_utilization, schC5, dcZ, dcA, hav0, vm0]
    rw [hempty] at hmap
    simp at hmap
  exact ⟨hne, green_first_selection.1 hav0 schC5 vm0 0 hne⟩

/-- Witness for C6: a 1-CPU pool cannot host a 2-CPU request; the theorem
applies with the capacity hypothesis discharged by computation. -/
theorem schedule_total_failure_witness :
    (∀ dc ∈ schC6.datacenters, dc.can_host_vm vm0 = false) ∧
    ((schedule_vm_complete hav0 schC6 vm0 0).1.1 = none ∧
     (schedule_vm_complete hav0 schC6 vm0 0).1.2.1 = false ∧
     (schedule_vm_complete hav0 schC6 vm0 0).2.metrics.failed_vms =
       schC6.metrics.failed_vms + 1 ∧
     (schedule_vm_complete hav0 schC6 vm0 0).2.datacenters = schC6.datacenters ∧
     (∀ e ∈ (schedule_vm_complete hav0 schC6 vm0 0).1.2.2.all_dc_evaluations,
       e.can_host = false ∧
       RejReason.insufficient_capacity ∈ e.rejection_reason) ∧
     (∀ dc ∈ schC6.datacenters,
       ∃ e ∈ (schedule_vm_complete hav0 schC6 vm0 0).1.2.2.all_dc_evaluations,
         e.datacenter_id = dc.id) ∧
     (schedule_vm_complete hav0 schC6 vm0 0).2.metrics.placement_decisions =
       schC6.metrics.placement_decisions ++
         [(schedule_vm_complete hav0 schC6 vm0 0).1.2.2]) := by
  have hcap : ∀ dc ∈ schC6.datacenters, dc.can_host_vm vm0 = false := by decide
  exact ⟨hcap, schedule_total_failure hav0 schC6 vm0 0 hcap⟩

end ECMR
